import Mathlib

/-!
A verification development for the keybinding-configuration front end
(scanner + lexer + recursive-descent parser).  The Rust source is embedded
shallowly: structs become structures, enums become inductives, functions
that mutate `&mut self` become functions returning the result paired with
the new state.  The two unbounded loops (the lexer's scan loop and the
parser's statement loop) are embedded with an explicit fuel parameter so
that every definition is executable; fuel sufficiency is proved from the
progress properties of the individual rules, so the out-of-fuel branches
are unreachable for the fuel the entry points supply.
-/

namespace Rolf

/-- Modifier keywords, from `enum Mod`. -/
inductive Mod
  | Ctrl
  | Shift
  | Alt
deriving DecidableEq, Repr

/-- Token kinds, from `enum TokenKind`. -/
inductive TokenKind
  | Id (name : String)
  | Mod (m : Mod)
  | Phrase (phrase : String)
  | Whitespace
  | Newline
deriving DecidableEq, Repr

/-- Tokens, from `struct Token`: a kind stamped with a line/column. -/
structure Token where
  line : Nat
  col : Nat
  kind : TokenKind
deriving DecidableEq, Repr

/-- Lexer-internal errors, from `enum LexError`. -/
inductive LexError
  | Expected (c : Char)
  | ExpectedPhrase (phrase : String)
  | ExpectedDigit
  | ExpectedLetter
  | ExpectedId
  | ExpectedMod
  | ExpectedWhitespace
  | ExpectedNewline
  | RemainingInput
deriving DecidableEq, Repr

/-- The character-level cursor, from `struct Scanner`. -/
structure Scanner where
  cursor : Nat
  characters : List Char
  curr_line : Nat
  curr_col : Nat
deriving DecidableEq, Repr

/-- `Scanner::new`: cursor at 0, line 1, column 1. -/
def Scanner.new (string : String) : Scanner :=
  { cursor := 0
    characters := string.data
    curr_line := 1
    curr_col := 1 }

/-- `Scanner::peek`: the character at the cursor, without advancing. -/
def Scanner.peek (s : Scanner) : Option Char :=
  s.characters.get? s.cursor

/-- `Scanner::is_done`: true iff the cursor is at or past the end. -/
def Scanner.is_done (s : Scanner) : Bool :=
  decide (s.characters.length ≤ s.cursor)

/-- `Scanner::pop`: consume one character, adjusting line/column
(a newline increments the line and resets the column to 1). -/
def Scanner.pop (s : Scanner) : Option Char × Scanner :=
  match s.characters.get? s.cursor with
  | some character =>
    if character = '\n' then
      (some character,
        { s with curr_line := s.curr_line + 1, curr_col := 1, cursor := s.cursor + 1 })
    else
      (some character,
        { s with curr_col := s.curr_col + 1, cursor := s.cursor + 1 })
  | none => (none, s)

/-- `Scanner::pop_in_range`: consume the current character iff it lies in
the inclusive range. -/
def Scanner.pop_in_range (s : Scanner) (lo hi : Char) : Option Char × Scanner :=
  match s.peek with
  | some ch =>
    if lo ≤ ch ∧ ch ≤ hi then
      (some ch, (s.pop).2)
    else
      (none, s)
  | none => (none, s)

/-- `Scanner::pop_in_slice`: consume the current character iff it is a
member of the slice. -/
def Scanner.pop_in_slice (s : Scanner) (range_slice : List Char) : Option Char × Scanner :=
  match s.peek with
  | some ch =>
    if range_slice.contains ch then
      (some ch, (s.pop).2)
    else
      (none, s)
  | none => (none, s)

/-- `Scanner::take`: consume the current character iff it equals `target`. -/
def Scanner.take (s : Scanner) (target : Char) : Bool × Scanner :=
  match s.characters.get? s.cursor with
  | some character =>
    if target = character then
      (true, (s.pop).2)
    else
      (false, s)
  | none => (false, s)

/-- Iterated `Scanner.pop` (the `for _ in orig_cursor..ind` loop of
`Scanner::take_str`). -/
def Scanner.popN (s : Scanner) : Nat → Scanner
  | 0 => s
  | n + 1 => ((s.pop).2).popN n

/-- The character-comparison loop of `Scanner::take_str`: starting at index
`ind`, check that `target` occurs character by character; in the source the
index is guarded by the length check, so the out-of-bounds branch here is
unreachable at the call site. -/
def Scanner.take_strGo (s : Scanner) : List Char → Nat → Option Nat
  | [], ind => some ind
  | ch :: rest, ind =>
    match s.characters.get? ind with
    | some c2 => if ch = c2 then s.take_strGo rest (ind + 1) else none
    | none => none

/-- `Scanner::take_str`: match the whole literal at the cursor; on any
mismatch or short input return false with the scanner unchanged, on success
consume exactly the literal's length via `pop`. -/
def Scanner.take_str (s : Scanner) (target : String) : Bool × Scanner :=
  if target.length + s.cursor > s.characters.length then
    (false, s)
  else
    match s.take_strGo target.data s.cursor with
    | some ind => (true, s.popN (ind - s.cursor))
    | none => (false, s)

/-- `Token::new`: stamp the scanner's current position onto the kind. -/
def Token.new (scanner : Scanner) (kind : TokenKind) : Token :=
  { line := scanner.curr_line
    col := scanner.curr_col
    kind := kind }

/-- The result of one lexer rule: the rule's verdict together with the
scanner state after the call (a rule takes `&mut Scanner` in the source). -/
abbrev LexRuleResult := Except LexError Token × Scanner

/-- The identifier-accumulation loop of `lex_id`.  Each iteration first
tries `pop_in_range('a'..='z')`; the source's second attempt (bound to a
variable named `uppercase`) also passes the range `'a'..='z'`, and that is
reproduced here unchanged.  The loop consumes one character per iteration,
so the fuel `lex_id` supplies (input length + 1) can never run out. -/
def lexIdGo : Nat → Scanner → String → String × Scanner
  | 0, s, buf => (buf, s)
  | fuel + 1, s, buf =>
    match s.pop_in_range 'a' 'z' with
    | (some letter, s1) => lexIdGo fuel s1 (buf.push letter)
    | (none, s1) =>
      match s1.pop_in_range 'a' 'z' with
      | (some letter, s2) => lexIdGo fuel s2 (buf.push letter)
      | (none, s2) => (buf, s2)

/-- `lex_id`: one-or-more characters accepted by the loop above, else
`ExpectedId`. -/
def lex_id (s : Scanner) : LexRuleResult :=
  match lexIdGo (s.characters.length + 1) s "" with
  | (buf, s1) =>
    if buf.isEmpty then
      (.error .ExpectedId, s1)
    else
      (.ok (Token.new s1 (.Id buf)), s1)

/-- `lex_mod`: try the literals "ctrl", "shift", "alt" in that order. -/
def lex_mod (s : Scanner) : LexRuleResult :=
  match s.take_str "ctrl" with
  | (true, s1) => (.ok (Token.new s1 (.Mod .Ctrl)), s1)
  | (false, s1) =>
    match s1.take_str "shift" with
    | (true, s2) => (.ok (Token.new s2 (.Mod .Shift)), s2)
    | (false, s2) =>
      match s2.take_str "alt" with
      | (true, s3) => (.ok (Token.new s3 (.Mod .Alt)), s3)
      | (false, s3) => (.error .ExpectedMod, s3)

/-- `lex_phrase`: the rule produced by the closure factory, matching one
fixed literal. -/
def lex_phrase (phrase : String) (s : Scanner) : LexRuleResult :=
  match s.take_str phrase with
  | (true, s1) => (.ok (Token.new s1 (.Phrase phrase)), s1)
  | (false, s1) => (.error (.ExpectedPhrase phrase), s1)

/-- The `while let` loop of `lex_whitespace`: pop space/tab characters,
remembering whether at least one was consumed.  One character is consumed
per iteration, so the fuel supplied (input length + 1) never runs out. -/
def lexWhitespaceGo : Nat → Scanner → Bool → Bool × Scanner
  | 0, s, was_whitespace => (was_whitespace, s)
  | fuel + 1, s, was_whitespace =>
    match s.pop_in_slice [' ', '\t'] with
    | (some _, s1) => lexWhitespaceGo fuel s1 true
    | (none, s1) => (was_whitespace, s1)

/-- `lex_whitespace`: one-or-more spaces/tabs collapsed into a single
`Whitespace` token, else `ExpectedWhitespace`. -/
def lex_whitespace (s : Scanner) : LexRuleResult :=
  match lexWhitespaceGo (s.characters.length + 1) s false with
  | (true, s1) => (.ok (Token.new s1 .Whitespace), s1)
  | (false, s1) => (.error .ExpectedWhitespace, s1)

/-- `lex_newline`: a single `\n` character. -/
def lex_newline (s : Scanner) : LexRuleResult :=
  match s.take '\n' with
  | (true, s1) => (.ok (Token.new s1 .Newline), s1)
  | (false, s1) => (.error .ExpectedNewline, s1)

/-- One pass over the ordered rule list of `lex` (`lex_mod`, `lex_newline`,
`lex_whitespace`, `lex_phrase "map"`, `lex_phrase "+"`, `lex_id`): the first
rule that succeeds wins; the scanner state is threaded through failed
attempts exactly as the `&mut` reference is in the source. -/
def lexStep (s : Scanner) : LexRuleResult :=
  match lex_mod s with
  | (.ok t, s1) => (.ok t, s1)
  | (.error _, s1) =>
    match lex_newline s1 with
    | (.ok t, s2) => (.ok t, s2)
    | (.error _, s2) =>
      match lex_whitespace s2 with
      | (.ok t, s3) => (.ok t, s3)
      | (.error _, s3) =>
        match lex_phrase "map" s3 with
        | (.ok t, s4) => (.ok t, s4)
        | (.error _, s4) =>
          match lex_phrase "+" s4 with
          | (.ok t, s5) => (.ok t, s5)
          | (.error _, s5) => lex_id s5

/-- The `'scanner` loop of `lex`, with fuel.  Each successful rule swaps its
token's stamped position with the running previous position (`mem::swap` on
`prev_line`/`prev_col`) and drops `Whitespace` tokens from the output.
`none` means the fuel ran out, which the sufficiency theorem rules out for
the fuel `lex` supplies. -/
def lexAux : Nat → Scanner → Nat → Nat → Option (Except LexError (List Token))
  | 0, _, _, _ => none
  | fuel + 1, s, prev_line, prev_col =>
    if s.is_done then
      some (.ok [])
    else
      match lexStep s with
      | (.ok token, s1) =>
        match lexAux fuel s1 token.line token.col with
        | some (.ok rest) =>
          some (.ok
            (if ({ token with line := prev_line, col := prev_col } : Token).kind
                = TokenKind.Whitespace then
              rest
            else
              { token with line := prev_line, col := prev_col } :: rest))
        | r => r
      | (.error _, _) => some (.error .RemainingInput)

/-- `lex`: run the scan loop from the given scanner state with the running
previous position initialised to line 1, column 1.  The fuel
`characters.length + 1` strictly exceeds the number of remaining characters,
and every successful rule consumes at least one character, so the `none`
branch is unreachable (proved below). -/
def lex (s : Scanner) : Except LexError (List Token) :=
  match lexAux (s.characters.length + 1) s 1 1 with
  | some r => r
  | none => .error .RemainingInput

/-- Parse-error positions, from `enum Position`. -/
inductive Position
  | EOF
  | Pos (line : Nat) (col : Nat)
deriving DecidableEq, Repr

/-- Parse-error kinds, from `enum ParseErrorKind`. -/
inductive ParseErrorKind
  | Message (msg : String)
  | RemainingTokens
  | Expected (kind : TokenKind)
  | ExpectedId
  | ExpectedMod
  | ExpectedEof
deriving DecidableEq, Repr

/-- Positioned parse errors, from `struct ParseError`. -/
structure ParseError where
  position : Position
  kind : ParseErrorKind
deriving DecidableEq, Repr

/-- `ParseError::new`: an error at end of input. -/
def ParseError.new (kind : ParseErrorKind) : ParseError :=
  { position := Position.EOF, kind := kind }

/-- `ParseError::new_pos`: an error at the given token's position. -/
def ParseError.new_pos (token : Token) (kind : ParseErrorKind) : ParseError :=
  { position := Position.Pos token.line token.col, kind := kind }

/-- Keys, from `struct Key`. -/
structure Key where
  modifier : Option Mod
  key : String
deriving DecidableEq, Repr

/-- Map bindings, from `struct Map`. -/
structure Map where
  key : Key
  cmd_name : String
deriving DecidableEq, Repr

/-- Statements, from `enum Statement`. -/
inductive Statement
  | Map (m : Map)
deriving DecidableEq, Repr

/-- `type Program = Vec<Statement>`. -/
def Program := List Statement
deriving DecidableEq, Repr

/-- The token-level cursor, from `struct Parser`. -/
structure Parser where
  cursor : Nat
  tokens : List Token
deriving DecidableEq, Repr

/-- `Parser::new`. -/
def Parser.new (tokens : List Token) : Parser :=
  { cursor := 0, tokens := tokens }

/-- `Parser::peek`: the token at the cursor, without advancing. -/
def Parser.peek (p : Parser) : Option Token :=
  p.tokens.get? p.cursor

/-- `Parser::is_done`: true iff the cursor is at or past the end. -/
def Parser.is_done (p : Parser) : Bool :=
  decide (p.tokens.length ≤ p.cursor)

/-- `Parser::pop`: return the token at the cursor and advance. -/
def Parser.pop (p : Parser) : Option Token × Parser :=
  match p.tokens.get? p.cursor with
  | some token => (some token, { p with cursor := p.cursor + 1 })
  | none => (none, p)

/-- The result of a fallible parser operation plus the state after it. -/
abbrev ParseStep (α : Type) := Except ParseError α × Parser

/-- `Parser::take_id`: an `Id` token yields its text; any other token is
`ExpectedId` at that token, no token is `ExpectedId` at end of input. -/
def Parser.take_id (p : Parser) : ParseStep String :=
  match p.peek with
  | some token =>
    match token.kind with
    | TokenKind.Id name => (.ok name, (p.pop).2)
    | _ => (.error (ParseError.new_pos token .ExpectedId), p)
  | none => (.error (ParseError.new .ExpectedId), p)

/-- `Parser::take_mod`: analogous to `take_id` for `Mod` tokens. -/
def Parser.take_mod (p : Parser) : ParseStep Mod :=
  match p.peek with
  | some token =>
    match token.kind with
    | TokenKind.Mod mod_enum => (.ok mod_enum, (p.pop).2)
    | _ => (.error (ParseError.new_pos token .ExpectedMod), p)
  | none => (.error (ParseError.new .ExpectedMod), p)

/-- `Parser::expect`: succeed iff the next token's kind equals `target`
(kind-only equality). -/
def Parser.expect (p : Parser) (target : TokenKind) : ParseStep Unit :=
  match p.tokens.get? p.cursor with
  | some token =>
    if target = token.kind then
      (.ok (), (p.pop).2)
    else
      (.error (ParseError.new_pos token (.Expected target)), p)
  | none => (.error (ParseError.new (.Expected target)), p)

/-- `parse_key`: an optional `Modifier` followed (mandatorily, once the
modifier is consumed) by the literal "+", then the key identifier. -/
def parse_key (p : Parser) : ParseStep Key :=
  match p.take_mod with
  | (.ok modifier, p1) =>
    match p1.expect (TokenKind.Phrase "+") with
    | (.ok _, p2) =>
      match p2.take_id with
      | (.ok key, p3) => (.ok { modifier := some modifier, key := key }, p3)
      | (.error e, p3) => (.error e, p3)
    | (.error e, p2) => (.error e, p2)
  | (.error _, p1) =>
    match p1.take_id with
    | (.ok key, p2) => (.ok { modifier := none, key := key }, p2)
    | (.error e, p2) => (.error e, p2)

/-- `parse_map`: the literal "map", a key, and the command identifier. -/
def parse_map (p : Parser) : ParseStep Map :=
  match p.expect (TokenKind.Phrase "map") with
  | (.ok _, p1) =>
    match parse_key p1 with
    | (.ok key, p2) =>
      match p2.take_id with
      | (.ok cmd_name, p3) => (.ok { key := key, cmd_name := cmd_name }, p3)
      | (.error e, p3) => (.error e, p3)
    | (.error e, p2) => (.error e, p2)
  | (.error e, p1) => (.error e, p1)

/-- `parse_statement`: wrap a map binding in the `Statement` variant. -/
def parse_statement (p : Parser) : ParseStep Statement :=
  match parse_map p with
  | (.ok m, p1) => (.ok (Statement.Map m), p1)
  | (.error e, p1) => (.error e, p1)

/-- The statement loop of `parse_program`, with fuel: parse a statement,
then either consume a `Newline` and continue, fail `Expected(Newline)` at a
different token, or finish at end of input.  `none` means the fuel ran out,
which the sufficiency theorem rules out for the fuel `parse` supplies. -/
def parse_program : Nat → Parser → Option (Except ParseError Program × Parser)
  | 0, _ => none
  | fuel + 1, p =>
    match parse_statement p with
    | (.ok statement, p1) =>
      match p1.peek with
      | some token =>
        if token.kind = TokenKind.Newline then
          match parse_program fuel ((p1.pop).2) with
          | some (.ok rest, p2) => some (.ok (statement :: rest), p2)
          | r => r
        else
          some (.error (ParseError.new_pos token (.Expected TokenKind.Newline)), p1)
      | none => some (.ok [statement], p1)
    | (.error e, p1) => some (.error e, p1)

/-- `parse`: parse a program and require the token sequence to be fully
consumed, else `RemainingTokens` at the first unconsumed token.  The fuel
`tokens.length + 1` strictly exceeds the number of remaining tokens and each
loop iteration consumes at least one token, so the out-of-fuel branch is
unreachable (proved below). -/
def parse (p : Parser) : Except ParseError Program :=
  match parse_program (p.tokens.length + 1) p with
  | some (.ok result, p1) =>
    if p1.is_done then
      .ok result
    else
      match p1.peek with
      | some token => .error (ParseError.new_pos token .RemainingTokens)
      | none => .error (ParseError.new .RemainingTokens)
  | some (.error e, _) => .error e
  | none => .error (ParseError.new (.Message "out of fuel"))

/-- The lex-then-parse pipeline exercised by `test_parse`. -/
def lex_parse (input : String) : Except LexError (Except ParseError Program) :=
  match lex (Scanner.new input) with
  | .ok tokens => .ok (parse (Parser.new tokens))
  | .error e => .error e

/-- The scan loop of `lex` without the position swap and without the
whitespace filter: it returns the produced tokens exactly as stamped by
`Token::new` (each with the scanner position *after* its own text).  Used
to state the position-correction property. -/
def stampedLexAux : Nat → Scanner → Option (Except LexError (List Token))
  | 0, _ => none
  | fuel + 1, s =>
    if s.is_done then
      some (.ok [])
    else
      match lexStep s with
      | (.ok token, s1) =>
        match stampedLexAux fuel s1 with
        | some (.ok rest) => some (.ok (token :: rest))
        | r => r
      | (.error _, _) => some (.error .RemainingInput)

/-- `stampedLexAux` with the fuel `lex` uses. -/
def lex_stamped (s : Scanner) : Except LexError (List Token) :=
  match stampedLexAux (s.characters.length + 1) s with
  | some r => r
  | none => .error .RemainingInput

/-- Modelled from the spec (§4.2 position correction): a single corrective
pass over the produced sequence with a running previous position initialised
by the caller to line 1 / column 1; each token in order exchanges its stored
position with the running value. -/
def correction_pass_spec (prev : Nat × Nat) : List Token → List Token
  | [] => []
  | token :: rest =>
    { token with line := prev.1, col := prev.2 } ::
      correction_pass_spec (token.line, token.col) rest

/-- The behaviour the spec requires of every lexer rule: succeed having
advanced the cursor (leaving the character buffer itself untouched), or
fail leaving the scanner exactly as it was. -/
def rule_spec (rule : Scanner → LexRuleResult) (s : Scanner) : Prop :=
  match rule s with
  | (.ok _, s1) => s.cursor < s1.cursor ∧ s1.characters = s.characters
  | (.error _, s1) => s1 = s

/-! ### Scanner lemmas -/

theorem Scanner.pop_snd_characters (s : Scanner) : (s.pop).2.characters = s.characters := by
  unfold Scanner.pop
  split
  · split <;> rfl
  · rfl

theorem Scanner.pop_cursor_le (s : Scanner) : s.cursor ≤ (s.pop).2.cursor := by
  unfold Scanner.pop
  split
  · split <;> simp
  · simp

theorem Scanner.pop_cursor_of_some (s : Scanner) (c : Char)
    (h : s.characters.get? s.cursor = some c) : (s.pop).2.cursor = s.cursor + 1 := by
  simp only [Scanner.pop, h]
  split <;> rfl

theorem Scanner.pop_of_none (s : Scanner)
    (h : s.characters.get? s.cursor = none) : s.pop = (none, s) := by
  simp only [Scanner.pop, h]

theorem Scanner.popN_characters (s : Scanner) (n : Nat) :
    (s.popN n).characters = s.characters := by
  induction n generalizing s with
  | zero => rfl
  | succ n ih =>
    show (((s.pop).2).popN n).characters = s.characters
    rw [ih, Scanner.pop_snd_characters]

theorem Scanner.popN_cursor (s : Scanner) (n : Nat)
    (h : s.cursor + n ≤ s.characters.length) : (s.popN n).cursor = s.cursor + n := by
  induction n generalizing s with
  | zero => rfl
  | succ n ih =>
    show (((s.pop).2).popN n).cursor = s.cursor + (n + 1)
    have hlt : s.cursor < s.characters.length := by omega
    obtain ⟨c, hc⟩ : ∃ c, s.characters.get? s.cursor = some c :=
      ⟨s.characters.get ⟨s.cursor, hlt⟩, List.get?_eq_get hlt⟩
    have hcur : (s.pop).2.cursor = s.cursor + 1 := s.pop_cursor_of_some c hc
    rw [ih (s.pop).2 (by rw [hcur, Scanner.pop_snd_characters]; omega), hcur]
    omega

theorem Scanner.pop_in_range_none (s : Scanner) (lo hi : Char)
    (h : (s.pop_in_range lo hi).1 = none) : (s.pop_in_range lo hi).2 = s := by
  rcases hpeek : s.peek with _ | ch
  · simp [Scanner.pop_in_range, hpeek]
  · by_cases hr : lo ≤ ch ∧ ch ≤ hi
    · simp [Scanner.pop_in_range, hpeek, hr] at h
    · simp [Scanner.pop_in_range, hpeek, hr]

theorem Scanner.pop_in_range_some (s : Scanner) (lo hi : Char) (c : Char)
    (h : (s.pop_in_range lo hi).1 = some c) :
    (s.pop_in_range lo hi).2.cursor = s.cursor + 1 ∧
    (s.pop_in_range lo hi).2.characters = s.characters := by
  rcases hpeek : s.peek with _ | ch
  · simp [Scanner.pop_in_range, hpeek] at h
  · by_cases hr : lo ≤ ch ∧ ch ≤ hi
    · simp only [Scanner.pop_in_range, hpeek, if_pos hr]
      exact ⟨s.pop_cursor_of_some ch hpeek, s.pop_snd_characters⟩
    · simp [Scanner.pop_in_range, hpeek, hr] at h

theorem Scanner.pop_in_slice_none (s : Scanner) (cs : List Char)
    (h : (s.pop_in_slice cs).1 = none) : (s.pop_in_slice cs).2 = s := by
  rcases hpeek : s.peek with _ | ch
  · simp [Scanner.pop_in_slice, hpeek]
  · by_cases hr : ch ∈ cs
    · simp [Scanner.pop_in_slice, hpeek, hr] at h
    · simp [Scanner.pop_in_slice, hpeek, hr]

theorem Scanner.pop_in_slice_some (s : Scanner) (cs : List Char) (c : Char)
    (h : (s.pop_in_slice cs).1 = some c) :
    (s.pop_in_slice cs).2.cursor = s.cursor + 1 ∧
    (s.pop_in_slice cs).2.characters = s.characters ∧
    s.peek = some c ∧ c ∈ cs := by
  rcases hpeek : s.peek with _ | ch
  · simp [Scanner.pop_in_slice, hpeek] at h
  · by_cases hr : ch ∈ cs
    · have hc : ch = c := by
        simpa [Scanner.pop_in_slice, hpeek, hr] using h
      subst hc
      have hcont : cs.contains ch = true := by simpa using hr
      have hget : s.characters.get? s.cursor = some ch := hpeek
      simp only [Scanner.pop_in_slice, hpeek, if_pos hcont]
      refine ⟨s.pop_cursor_of_some ch hget, s.pop_snd_characters, ?_, hr⟩
      simp
    · simp [Scanner.pop_in_slice, hpeek, hr] at h

theorem Scanner.take_false (s : Scanner) (target : Char)
    (h : (s.take target).1 = false) : (s.take target).2 = s := by
  rcases hget : s.characters.get? s.cursor with _ | ch
  · simp only [Scanner.take, hget]
  · by_cases hr : target = ch
    · simp only [Scanner.take, hget, if_pos hr] at h
      simp at h
    · simp only [Scanner.take, hget, if_neg hr]

theorem Scanner.take_true (s : Scanner) (target : Char)
    (h : (s.take target).1 = true) :
    (s.take target).2.cursor = s.cursor + 1 ∧
    (s.take target).2.characters = s.characters := by
  rcases hget : s.characters.get? s.cursor with _ | ch
  · simp only [Scanner.take, hget] at h
    simp at h
  · by_cases hr : target = ch
    · simp only [Scanner.take, hget, if_pos hr]
      exact ⟨s.pop_cursor_of_some ch hget, s.pop_snd_characters⟩
    · simp only [Scanner.take, hget, if_neg hr] at h
      simp at h

theorem Scanner.take_strGo_some (s : Scanner) (t : List Char) (ind j : Nat)
    (h : s.take_strGo t ind = some j) : j = ind + t.length := by
  induction t generalizing ind with
  | nil =>
    simp only [Scanner.take_strGo, Option.some.injEq] at h
    simp [← h]
  | cons c rest ih =>
    rcases hget : s.characters.get? ind with _ | c2
    · simp only [Scanner.take_strGo, hget] at h
      simp at h
    · by_cases hr : c = c2
      · simp only [Scanner.take_strGo, hget, if_pos hr] at h
        have := ih (ind + 1) h
        simp [this]
        omega
      · simp only [Scanner.take_strGo, hget, if_neg hr] at h
        simp at h

/-- Claim-relevant characterisation of `take_str` failure. -/
theorem Scanner.take_str_false (s : Scanner) (target : String)
    (h : (s.take_str target).1 = false) : (s.take_str target).2 = s := by
  by_cases hlen : target.length + s.cursor > s.characters.length
  · simp [Scanner.take_str, hlen]
  · rcases hgo : s.take_strGo target.data s.cursor with _ | ind
    · simp [Scanner.take_str, hlen, hgo]
    · simp [Scanner.take_str, hlen, hgo] at h

/-- Claim-relevant characterisation of `take_str` success: the result state
is exactly `target.length` iterated `pop`s. -/
theorem Scanner.take_str_true (s : Scanner) (target : String)
    (h : (s.take_str target).1 = true) :
    (s.take_str target).2 = s.popN target.length ∧
    (s.take_str target).2.cursor = s.cursor + target.length ∧
    (s.take_str target).2.characters = s.characters := by
  by_cases hlen : target.length + s.cursor > s.characters.length
  · simp [Scanner.take_str, hlen] at h
  · rcases hgo : s.take_strGo target.data s.cursor with _ | ind
    · simp [Scanner.take_str, hlen, hgo] at h
    · have hind : ind = s.cursor + target.data.length :=
        s.take_strGo_some target.data s.cursor ind hgo
      have hdata : target.data.length = target.length := rfl
      have h2 : ind - s.cursor = target.length := by omega
      simp only [Scanner.take_str, hlen, hgo, if_neg hlen, h2]
      exact ⟨rfl, s.popN_cursor target.length (by omega), s.popN_characters _⟩

/-! ### Lexer rule lemmas -/

theorem lexIdGo_spec : ∀ (fuel : Nat) (s : Scanner) (buf : String),
    (lexIdGo fuel s buf).2.characters = s.characters ∧
    s.cursor ≤ (lexIdGo fuel s buf).2.cursor ∧
    buf.length ≤ (lexIdGo fuel s buf).1.length ∧
    ((lexIdGo fuel s buf).1.length ≤ buf.length → lexIdGo fuel s buf = (buf, s)) ∧
    (buf.length < (lexIdGo fuel s buf).1.length → s.cursor < (lexIdGo fuel s buf).2.cursor) := by
  intro fuel
  induction fuel with
  | zero =>
    intro s buf
    exact ⟨rfl, le_refl _, le_refl _, fun _ => rfl, fun h => absurd h (lt_irrefl _)⟩
  | succ fuel ih =>
    intro s buf
    rcases h1 : s.pop_in_range 'a' 'z' with ⟨r1, s1⟩
    cases r1 with
    | some letter =>
      have hf : (s.pop_in_range 'a' 'z').1 = some letter := by rw [h1]
      have hp := s.pop_in_range_some 'a' 'z' letter hf
      rw [h1] at hp
      have hp1 : s1.cursor = s.cursor + 1 := by simpa using hp.1
      have hp2 : s1.characters = s.characters := by simpa using hp.2
      have heq : lexIdGo (fuel + 1) s buf = lexIdGo fuel s1 (buf.push letter) := by
        simp only [lexIdGo, h1]
      obtain ⟨ihA, ihB, ihC, ihD, ihE⟩ := ih s1 (buf.push letter)
      have hpushlen : (buf.push letter).length = buf.length + 1 := by simp
      rw [heq]
      refine ⟨by rw [ihA, hp2], by omega, by omega, fun hle => absurd hle (by omega),
        fun _ => by omega⟩
    | none =>
      have hf : (s.pop_in_range 'a' 'z').1 = none := by rw [h1]
      have hs1 : s1 = s := by
        have := s.pop_in_range_none 'a' 'z' hf
        rw [h1] at this
        exact this
      have heq : lexIdGo (fuel + 1) s buf = (buf, s) := by
        simp only [lexIdGo, h1, hs1]
      rw [heq]
      exact ⟨rfl, le_refl _, le_refl _, fun _ => rfl, fun h => absurd h (lt_irrefl _)⟩

theorem lex_id_err (s : Scanner) (e : LexError) (s' : Scanner)
    (h : lex_id s = (.error e, s')) : s' = s := by
  rcases hgo : lexIdGo (s.characters.length + 1) s "" with ⟨buf, s1⟩
  by_cases hemp : buf.isEmpty = true
  · have hlen : buf.length ≤ ("" : String).length := by
      have : ¬ (buf.isEmpty = true) → False := fun hc => hc hemp
      rw [String.isEmpty_iff] at hemp
      simp [hemp]
    have hid := (lexIdGo_spec (s.characters.length + 1) s "").2.2.2.1 (by rw [hgo]; exact hlen)
    rw [hgo] at hid
    have hs1 : s1 = s := congrArg Prod.snd hid
    simp only [lex_id, hgo, hemp, if_true] at h
    have := congrArg Prod.snd h
    simp at this
    rw [← this, hs1]
  · simp only [lex_id, hgo, hemp] at h
    simp at h

theorem lex_id_ok (s : Scanner) (t : Token) (s' : Scanner)
    (h : lex_id s = (.ok t, s')) :
    s.cursor < s'.cursor ∧ s'.characters = s.characters ∧
    ∃ name, t = Token.new s' (.Id name) := by
  rcases hgo : lexIdGo (s.characters.length + 1) s "" with ⟨buf, s1⟩
  by_cases hemp : buf.isEmpty = true
  · simp only [lex_id, hgo, hemp, if_true] at h
    simp at h
  · simp only [lex_id, hgo, hemp, if_false] at h
    have hbuf : 0 < buf.length := by
      have hne : ¬ (buf = "") := by
        intro hc
        rw [String.isEmpty_iff] at hemp
        exact hemp hc
      cases buf with
      | mk data =>
        cases data with
        | nil => exact absurd rfl hne
        | cons a l => simp [String.length]
    obtain ⟨sA, sB, sC, sD, sE⟩ := lexIdGo_spec (s.characters.length + 1) s ""
    rw [hgo] at sA sB sC sD sE
    have hprog : s.cursor < s1.cursor := sE (by simpa using hbuf)
    injection h with h1 h2
    injection h1 with h3
    subst h2
    exact ⟨hprog, sA, buf, h3.symm⟩

theorem lex_mod_err (s : Scanner) (e : LexError) (s' : Scanner)
    (h : lex_mod s = (.error e, s')) : s' = s := by
  rcases h1 : s.take_str "ctrl" with ⟨b1, s1⟩
  cases b1
  case true => simp only [lex_mod, h1] at h; simp at h
  case false =>
  have hs1 : s1 = s := by
    have := s.take_str_false "ctrl" (by rw [h1])
    rw [h1] at this
    exact this
  rcases h2 : s1.take_str "shift" with ⟨b2, s2⟩
  cases b2
  case true => simp only [lex_mod, h1, h2] at h; simp at h
  case false =>
  have hs2 : s2 = s1 := by
    have := s1.take_str_false "shift" (by rw [h2])
    rw [h2] at this
    exact this
  rcases h3 : s2.take_str "alt" with ⟨b3, s3⟩
  cases b3
  case true => simp only [lex_mod, h1, h2, h3] at h; simp at h
  case false =>
  have hs3 : s3 = s2 := by
    have := s2.take_str_false "alt" (by rw [h3])
    rw [h3] at this
    exact this
  simp only [lex_mod, h1, h2, h3] at h
  have := congrArg Prod.snd h
  simp at this
  rw [← this, hs3, hs2, hs1]

theorem lex_mod_ok (s : Scanner) (t : Token) (s' : Scanner)
    (h : lex_mod s = (.ok t, s')) :
    s.cursor < s'.cursor ∧ s'.characters = s.characters ∧
    ∃ m, t = Token.new s' (.Mod m) := by
  rcases h1 : s.take_str "ctrl" with ⟨b1, s1⟩
  cases b1
  case true =>
    have hp := s.take_str_true "ctrl" (by rw [h1])
    rw [h1] at hp
    have hc : s1.cursor = s.cursor + ("ctrl" : String).length := by simpa using hp.2.1
    have hch : s1.characters = s.characters := by simpa using hp.2.2
    simp only [lex_mod, h1] at h
    injection h with hl hr
    injection hl with hl
    subst hr
    exact ⟨by rw [hc]; simp [String.length], hch, Mod.Ctrl, hl.symm⟩
  case false =>
  have hs1 : s1 = s := by
    have := s.take_str_false "ctrl" (by rw [h1])
    rw [h1] at this
    exact this
  rcases h2 : s1.take_str "shift" with ⟨b2, s2⟩
  cases b2
  case true =>
    have hp := s1.take_str_true "shift" (by rw [h2])
    rw [h2] at hp
    have hc : s2.cursor = s1.cursor + ("shift" : String).length := by simpa using hp.2.1
    have hch : s2.characters = s1.characters := by simpa using hp.2.2
    simp only [lex_mod, h1, h2] at h
    injection h with hl hr
    injection hl with hl
    subst hr
    refine ⟨?_, by rw [hch, hs1], Mod.Shift, hl.symm⟩
    rw [hc, hs1]
    simp [String.length]
  case false =>
  have hs2 : s2 = s1 := by
    have := s1.take_str_false "shift" (by rw [h2])
    rw [h2] at this
    exact this
  rcases h3 : s2.take_str "alt" with ⟨b3, s3⟩
  cases b3
  case true =>
    have hp := s2.take_str_true "alt" (by rw [h3])
    rw [h3] at hp
    have hc : s3.cursor = s2.cursor + ("alt" : String).length := by simpa using hp.2.1
    have hch : s3.characters = s2.characters := by simpa using hp.2.2
    simp only [lex_mod, h1, h2, h3] at h
    injection h with hl hr
    injection hl with hl
    subst hr
    refine ⟨?_, by rw [hch, hs2, hs1], Mod.Alt, hl.symm⟩
    rw [hc, hs2, hs1]
    simp [String.length]
  case false =>
    simp only [lex_mod, h1, h2, h3] at h
    simp at h

theorem lex_phrase_err (phrase : String) (s : Scanner) (e : LexError) (s' : Scanner)
    (h : lex_phrase phrase s = (.error e, s')) : s' = s := by
  rcases h1 : s.take_str phrase with ⟨b1, s1⟩
  cases b1
  case true => simp only [lex_phrase, h1] at h; simp at h
  case false =>
    have hs1 : s1 = s := by
      have := s.take_str_false phrase (by rw [h1])
      rw [h1] at this
      exact this
    simp only [lex_phrase, h1] at h
    have := congrArg Prod.snd h
    simp at this
    rw [← this, hs1]

theorem lex_phrase_ok (phrase : String) (s : Scanner) (t : Token) (s' : Scanner)
    (hlen : 0 < phrase.length) (h : lex_phrase phrase s = (.ok t, s')) :
    s.cursor < s'.cursor ∧ s'.characters = s.characters ∧
    t = Token.new s' (.Phrase phrase) := by
  rcases h1 : s.take_str phrase with ⟨b1, s1⟩
  cases b1
  case true =>
    have hp := s.take_str_true phrase (by rw [h1])
    rw [h1] at hp
    have hc : s1.cursor = s.cursor + phrase.length := by simpa using hp.2.1
    have hch : s1.characters = s.characters := by simpa using hp.2.2
    simp only [lex_phrase, h1] at h
    injection h with hl hr
    injection hl with hl
    subst hr
    exact ⟨by omega, hch, hl.symm⟩
  case false =>
    simp only [lex_phrase, h1] at h
    simp at h

theorem lexWhitespaceGo_spec : ∀ (fuel : Nat) (s : Scanner) (was : Bool),
    (lexWhitespaceGo fuel s was).2.characters = s.characters ∧
    s.cursor ≤ (lexWhitespaceGo fuel s was).2.cursor ∧
    ((lexWhitespaceGo fuel s was).1 = false → lexWhitespaceGo fuel s was = (false, s)) ∧
    (was = true → (lexWhitespaceGo fuel s was).1 = true) ∧
    (was = false → (lexWhitespaceGo fuel s was).1 = true →
      s.cursor < (lexWhitespaceGo fuel s was).2.cursor ∧
      ∃ c, s.peek = some c ∧ (c = ' ' ∨ c = '\t')) := by
  intro fuel
  induction fuel with
  | zero =>
    intro s was
    refine ⟨rfl, le_refl _, fun h1 => ?_, fun h1 => h1, fun h1 h2 => ?_⟩
    · have hw : was = false := h1
      show (was, s) = (false, s)
      rw [hw]
    · have hw : was = true := h2
      rw [h1] at hw
      simp at hw
  | succ fuel ih =>
    intro s was
    rcases h1 : s.pop_in_slice [' ', '\t'] with ⟨r1, s1⟩
    cases r1 with
    | some c =>
      have hf : (s.pop_in_slice [' ', '\t']).1 = some c := by rw [h1]
      have hp := s.pop_in_slice_some [' ', '\t'] c hf
      rw [h1] at hp
      have hp1 : s1.cursor = s.cursor + 1 := by simpa using hp.1
      have hp2 : s1.characters = s.characters := by simpa using hp.2.1
      have hpeek : s.peek = some c := hp.2.2.1
      have hmem : c = ' ' ∨ c = '\t' := by simpa using hp.2.2.2
      have heq : lexWhitespaceGo (fuel + 1) s was = lexWhitespaceGo fuel s1 true := by
        simp only [lexWhitespaceGo, h1]
      obtain ⟨ihA, ihB, ihC, ihD, ihE⟩ := ih s1 true
      rw [heq]
      refine ⟨by rw [ihA, hp2], by omega, ?_, fun _ => ihD rfl, fun _ _ => ⟨by omega, c, hpeek, hmem⟩⟩
      intro hfalse
      rw [ihD rfl] at hfalse
      simp at hfalse
    | none =>
      have hf : (s.pop_in_slice [' ', '\t']).1 = none := by rw [h1]
      have hs1 : s1 = s := by
        have := s.pop_in_slice_none [' ', '\t'] hf
        rw [h1] at this
        exact this
      have heq : lexWhitespaceGo (fuel + 1) s was = (was, s) := by
        simp only [lexWhitespaceGo, h1, hs1]
      rw [heq]
      refine ⟨rfl, le_refl _, fun h2 => by rw [← h2], fun h2 => h2, fun h2 h3 => ?_⟩
      rw [h2] at h3
      simp at h3

theorem lex_whitespace_err (s : Scanner) (e : LexError) (s' : Scanner)
    (h : lex_whitespace s = (.error e, s')) : s' = s := by
  rcases hgo : lexWhitespaceGo (s.characters.length + 1) s false with ⟨was, s1⟩
  cases was
  case true => simp only [lex_whitespace, hgo] at h; simp at h
  case false =>
    have hC := (lexWhitespaceGo_spec (s.characters.length + 1) s false).2.2.1
    rw [hgo] at hC
    have := hC rfl
    have hs1 : s1 = s := congrArg Prod.snd this
    simp only [lex_whitespace, hgo] at h
    have := congrArg Prod.snd h
    simp at this
    rw [← this, hs1]

theorem lex_whitespace_ok (s : Scanner) (t : Token) (s' : Scanner)
    (h : lex_whitespace s = (.ok t, s')) :
    s.cursor < s'.cursor ∧ s'.characters = s.characters ∧
    t = Token.new s' .Whitespace ∧
    ∃ c, s.peek = some c ∧ (c = ' ' ∨ c = '\t') := by
  rcases hgo : lexWhitespaceGo (s.characters.length + 1) s false with ⟨was, s1⟩
  cases was
  case false => simp only [lex_whitespace, hgo] at h; simp at h
  case true =>
    obtain ⟨sA, sB, sC, sD, sE⟩ := lexWhitespaceGo_spec (s.characters.length + 1) s false
    rw [hgo] at sA sB sC sD sE
    obtain ⟨hprog, hc⟩ := sE rfl rfl
    simp only [lex_whitespace, hgo] at h
    injection h with hl hr
    injection hl with hl
    subst hr
    exact ⟨by simpa using hprog, by simpa using sA, hl.symm, hc⟩

theorem lex_newline_err (s : Scanner) (e : LexError) (s' : Scanner)
    (h : lex_newline s = (.error e, s')) : s' = s := by
  rcases h1 : s.take '\n' with ⟨b1, s1⟩
  cases b1
  case true => simp only [lex_newline, h1] at h; simp at h
  case false =>
    have hs1 : s1 = s := by
      have := s.take_false '\n' (by rw [h1])
      rw [h1] at this
      exact this
    simp only [lex_newline, h1] at h
    have := congrArg Prod.snd h
    simp at this
    rw [← this, hs1]

theorem lex_newline_ok (s : Scanner) (t : Token) (s' : Scanner)
    (h : lex_newline s = (.ok t, s')) :
    s.cursor < s'.cursor ∧ s'.characters = s.characters ∧
    t = Token.new s' .Newline := by
  rcases h1 : s.take '\n' with ⟨b1, s1⟩
  cases b1
  case true =>
    have hp := s.take_true '\n' (by rw [h1])
    rw [h1] at hp
    have hc : s1.cursor = s.cursor + 1 := by simpa using hp.1
    have hch : s1.characters = s.characters := by simpa using hp.2
    simp only [lex_newline, h1] at h
    injection h with hl hr
    injection hl with hl
    subst hr
    exact ⟨by omega, hch, hl.symm⟩
  case false =>
    simp only [lex_newline, h1] at h
    simp at h

/-! ### Rule-dispatch lemmas -/

theorem lexStep_err (s : Scanner) (e : LexError) (s' : Scanner)
    (h : lexStep s = (.error e, s')) : s' = s := by
  rcases h1 : lex_mod s with ⟨r1, s1⟩
  cases r1 with
  | ok t1 =>
    have heq : lexStep s = (.ok t1, s1) := by simp only [lexStep, h1]
    rw [heq] at h
    simp at h
  | error e1 =>
    have hs1 : s1 = s := lex_mod_err s e1 s1 h1
    subst hs1
    rcases h2 : lex_newline s1 with ⟨r2, s2⟩
    cases r2 with
    | ok t2 =>
      have heq : lexStep s1 = (.ok t2, s2) := by simp only [lexStep, h1, h2]
      rw [heq] at h
      simp at h
    | error e2 =>
      have hs2 : s2 = s1 := lex_newline_err s1 e2 s2 h2
      subst hs2
      rcases h3 : lex_whitespace s2 with ⟨r3, s3⟩
      cases r3 with
      | ok t3 =>
        have heq : lexStep s2 = (.ok t3, s3) := by simp only [lexStep, h1, h2, h3]
        rw [heq] at h
        simp at h
      | error e3 =>
        have hs3 : s3 = s2 := lex_whitespace_err s2 e3 s3 h3
        subst hs3
        rcases h4 : lex_phrase "map" s3 with ⟨r4, s4⟩
        cases r4 with
        | ok t4 =>
          have heq : lexStep s3 = (.ok t4, s4) := by simp only [lexStep, h1, h2, h3, h4]
          rw [heq] at h
          simp at h
        | error e4 =>
          have hs4 : s4 = s3 := lex_phrase_err "map" s3 e4 s4 h4
          subst hs4
          rcases h5 : lex_phrase "+" s4 with ⟨r5, s5⟩
          cases r5 with
          | ok t5 =>
            have heq : lexStep s4 = (.ok t5, s5) := by
              simp only [lexStep, h1, h2, h3, h4, h5]
            rw [heq] at h
            simp at h
          | error e5 =>
            have hs5 : s5 = s4 := lex_phrase_err "+" s4 e5 s5 h5
            subst hs5
            have heq : lexStep s5 = lex_id s5 := by
              simp only [lexStep, h1, h2, h3, h4, h5]
            rw [heq] at h
            exact lex_id_err s5 e s' h

theorem lexStep_ok_spec (s : Scanner) (t : Token) (s' : Scanner)
    (h : lexStep s = (.ok t, s')) :
    s.cursor < s'.cursor ∧ s'.characters = s.characters ∧
    t.line = s'.curr_line ∧ t.col = s'.curr_col ∧
    (t.kind = .Whitespace → ∃ c, s.peek = some c ∧ (c = ' ' ∨ c = '\t')) := by
  rcases h1 : lex_mod s with ⟨r1, s1⟩
  cases r1 with
  | ok t1 =>
    have heq : lexStep s = (.ok t1, s1) := by simp only [lexStep, h1]
    rw [heq] at h
    injection h with hl hr
    injection hl with hl
    subst hr
    subst hl
    obtain ⟨hprog, hch, m, ht⟩ := lex_mod_ok s t1 s1 h1
    subst ht
    exact ⟨hprog, hch, rfl, rfl, fun hk => by simp [Token.new] at hk⟩
  | error e1 =>
    have hs1 : s1 = s := lex_mod_err s e1 s1 h1
    subst hs1
    rcases h2 : lex_newline s1 with ⟨r2, s2⟩
    cases r2 with
    | ok t2 =>
      have heq : lexStep s1 = (.ok t2, s2) := by simp only [lexStep, h1, h2]
      rw [heq] at h
      injection h with hl hr
      injection hl with hl
      subst hr
      subst hl
      obtain ⟨hprog, hch, ht⟩ := lex_newline_ok s1 t2 s2 h2
      subst ht
      exact ⟨hprog, hch, rfl, rfl, fun hk => by simp [Token.new] at hk⟩
    | error e2 =>
      have hs2 : s2 = s1 := lex_newline_err s1 e2 s2 h2
      subst hs2
      rcases h3 : lex_whitespace s2 with ⟨r3, s3⟩
      cases r3 with
      | ok t3 =>
        have heq : lexStep s2 = (.ok t3, s3) := by simp only [lexStep, h1, h2, h3]
        rw [heq] at h
        injection h with hl hr
        injection hl with hl
        subst hr
        subst hl
        obtain ⟨hprog, hch, ht, hc⟩ := lex_whitespace_ok s2 t3 s3 h3
        subst ht
        exact ⟨hprog, hch, rfl, rfl, fun _ => hc⟩
      | error e3 =>
        have hs3 : s3 = s2 := lex_whitespace_err s2 e3 s3 h3
        subst hs3
        rcases h4 : lex_phrase "map" s3 with ⟨r4, s4⟩
        cases r4 with
        | ok t4 =>
          have heq : lexStep s3 = (.ok t4, s4) := by simp only [lexStep, h1, h2, h3, h4]
          rw [heq] at h
          injection h with hl hr
          injection hl with hl
          subst hr
          subst hl
          obtain ⟨hprog, hch, ht⟩ := lex_phrase_ok "map" s3 t4 s4 (by simp [String.length]) h4
          subst ht
          exact ⟨hprog, hch, rfl, rfl, fun hk => by simp [Token.new] at hk⟩
        | error e4 =>
          have hs4 : s4 = s3 := lex_phrase_err "map" s3 e4 s4 h4
          subst hs4
          rcases h5 : lex_phrase "+" s4 with ⟨r5, s5⟩
          cases r5 with
          | ok t5 =>
            have heq : lexStep s4 = (.ok t5, s5) := by
              simp only [lexStep, h1, h2, h3, h4, h5]
            rw [heq] at h
            injection h with hl hr
            injection hl with hl
            subst hr
            subst hl
            obtain ⟨hprog, hch, ht⟩ := lex_phrase_ok "+" s4 t5 s5 (by simp [String.length]) h5
            subst ht
            exact ⟨hprog, hch, rfl, rfl, fun hk => by simp [Token.new] at hk⟩
          | error e5 =>
            have hs5 : s5 = s4 := lex_phrase_err "+" s4 e5 s5 h5
            subst hs5
            have heq : lexStep s5 = lex_id s5 := by
              simp only [lexStep, h1, h2, h3, h4, h5]
            rw [heq] at h
            obtain ⟨hprog, hch, name, ht⟩ := lex_id_ok s5 t s' h
            subst ht
            exact ⟨hprog, hch, rfl, rfl, fun hk => by simp [Token.new] at hk⟩

/-! ### Scan-loop lemmas -/

theorem lexAux_isSome : ∀ (fuel : Nat) (s : Scanner) (pl pc : Nat),
    s.characters.length - s.cursor < fuel → (lexAux fuel s pl pc).isSome = true := by
  intro fuel
  induction fuel with
  | zero =>
    intro s pl pc h
    omega
  | succ fuel ih =>
    intro s pl pc h
    by_cases hdone : s.is_done = true
    · simp [lexAux, hdone]
    · have hdone' : s.is_done = false := by simpa using hdone
      have hcur : s.cursor < s.characters.length := by
        simp [Scanner.is_done] at hdone'
        omega
      rcases hstep : lexStep s with ⟨r, s1⟩
      cases r with
      | ok token =>
        obtain ⟨hprog, hch, -, -, -⟩ := lexStep_ok_spec s token s1 hstep
        have hrec : s1.characters.length - s1.cursor < fuel := by
          rw [hch]
          omega
        have hsome := ih s1 token.line token.col hrec
        rcases hx : lexAux fuel s1 token.line token.col with _ | r2
        · rw [hx] at hsome
          simp at hsome
        · cases r2 with
          | ok rest => simp [lexAux, hdone', hstep, hx]
          | error e => simp [lexAux, hdone', hstep, hx]
      | error e =>
        simp [lexAux, hdone', hstep]

theorem lexAux_eq_corrected : ∀ (fuel : Nat) (s : Scanner) (pl pc : Nat),
    lexAux fuel s pl pc =
      (stampedLexAux fuel s).map (Except.map fun raw =>
        (correction_pass_spec (pl, pc) raw).filter
          fun token => !decide (token.kind = TokenKind.Whitespace)) := by
  intro fuel
  induction fuel with
  | zero =>
    intro s pl pc
    rfl
  | succ fuel ih =>
    intro s pl pc
    by_cases hdone : s.is_done = true
    · simp [lexAux, stampedLexAux, hdone, correction_pass_spec, Except.map]
    · have hdone' : s.is_done = false := by simpa using hdone
      rcases hstep : lexStep s with ⟨r, s1⟩
      cases r with
      | ok token =>
        rcases hx : stampedLexAux fuel s1 with _ | r2
        · have hih := ih s1 token.line token.col
          rw [hx] at hih
          simp only [lexAux, stampedLexAux, hdone', hstep, hih, hx]
          simp
        · cases r2 with
          | ok rest =>
            have hih := ih s1 token.line token.col
            rw [hx] at hih
            simp only [lexAux, stampedLexAux, hdone', hstep, hih, hx]
            by_cases hk : token.kind = TokenKind.Whitespace <;>
              simp [correction_pass_spec, List.filter, hk, Except.map]
          | error e2 =>
            have hih := ih s1 token.line token.col
            rw [hx] at hih
            simp only [lexAux, stampedLexAux, hdone', hstep, hih, hx]
            simp [Except.map]
      | error e =>
        simp [lexAux, stampedLexAux, hdone', hstep, Except.map]

theorem correction_pass_spec_zip : ∀ (prev : Nat × Nat) (raw : List Token),
    correction_pass_spec prev raw =
      List.zipWith (fun token q => { token with line := q.1, col := q.2 }) raw
        (prev :: raw.map fun token => (token.line, token.col)) := by
  intro prev raw
  induction raw generalizing prev with
  | nil => rfl
  | cons t rest ih =>
    simp [correction_pass_spec, ih]

theorem lex_ok_correction (s : Scanner) (ts : List Token) (h : lex s = .ok ts) :
    ∃ raw, lex_stamped s = .ok raw ∧
      ts = (correction_pass_spec (1, 1) raw).filter
        fun token => !decide (token.kind = TokenKind.Whitespace) := by
  have heq := lexAux_eq_corrected (s.characters.length + 1) s 1 1
  rcases hx : stampedLexAux (s.characters.length + 1) s with _ | r2
  · rw [hx] at heq
    simp only [Option.map_none'] at heq
    rw [lex, heq] at h
    simp at h
  · cases r2 with
    | ok raw =>
      rw [hx] at heq
      simp only [Option.map_some'] at heq
      rw [lex, heq] at h
      simp only [Except.map] at h
      refine ⟨raw, by rw [lex_stamped, hx], ?_⟩
      injection h with h1
      exact h1.symm
    | error e =>
      rw [hx] at heq
      simp only [Option.map_some'] at heq
      rw [lex, heq] at h
      simp [Except.map] at h

theorem lex_first_token (input : String) (ts : List Token)
    (h : lex (Scanner.new input) = .ok ts) (hne : ts ≠ [])
    (hsp : (Scanner.new input).peek ≠ some ' ')
    (htab : (Scanner.new input).peek ≠ some '\t') :
    ∃ t rest, ts = t :: rest ∧ t.line = 1 ∧ t.col = 1 := by
  set s := Scanner.new input with hs
  by_cases hdone : s.is_done = true
  · rw [lex] at h
    simp only [lexAux, hdone, if_true] at h
    injection h with h1
    exact absurd h1.symm hne
  · have hdone' : s.is_done = false := by simpa using hdone
    rcases hstep : lexStep s with ⟨r, s1⟩
    cases r with
    | ok token =>
      have hkind : ¬ token.kind = TokenKind.Whitespace := by
        intro hk
        obtain ⟨-, -, -, -, hws⟩ := lexStep_ok_spec s token s1 hstep
        obtain ⟨c, hpeek, hc⟩ := hws hk
        cases hc with
        | inl hc => rw [hc] at hpeek; exact hsp hpeek
        | inr hc => rw [hc] at hpeek; exact htab hpeek
      rcases hx : lexAux s.characters.length s1 token.line token.col with _ | r2
      · rw [lex] at h
        simp only [lexAux, hdone', Bool.false_eq_true, if_false, hstep, hx] at h
        simp at h
      · cases r2 with
        | ok rest =>
          rw [lex] at h
          simp only [lexAux, hdone', Bool.false_eq_true, if_false, hstep, hx] at h
          rw [if_neg (by simpa using hkind)] at h
          injection h with h1
          exact ⟨_, rest, h1.symm, rfl, rfl⟩
        | error e2 =>
          rw [lex] at h
          simp only [lexAux, hdone', Bool.false_eq_true, if_false, hstep, hx] at h
          simp at h
    | error e =>
      rw [lex] at h
      simp only [lexAux, hdone', Bool.false_eq_true, if_false, hstep] at h
      simp at h

/-! ### Parser lemmas -/

theorem Parser.pop_snd_of_some (p : Parser) (tok : Token)
    (h : p.tokens.get? p.cursor = some tok) :
    (p.pop).2 = { p with cursor := p.cursor + 1 } := by
  simp only [Parser.pop, h]

theorem Parser.expect_ok (p : Parser) (target : TokenKind) (u : Unit) (p' : Parser)
    (h : p.expect target = (.ok u, p')) :
    p'.cursor = p.cursor + 1 ∧ p'.tokens = p.tokens ∧ p.cursor < p.tokens.length := by
  rcases hget : p.tokens.get? p.cursor with _ | tok
  · simp only [Parser.expect, hget] at h
    simp at h
  · obtain ⟨hlt, -⟩ := List.get?_eq_some.mp hget
    by_cases ht : target = tok.kind
    · simp only [Parser.expect, hget, if_pos ht] at h
      injection h with h1 h2
      rw [← h2, p.pop_snd_of_some tok hget]
      exact ⟨rfl, rfl, hlt⟩
    · simp only [Parser.expect, hget, if_neg ht] at h
      simp at h

theorem Parser.expect_err (p : Parser) (target : TokenKind) (e : ParseError) (p' : Parser)
    (h : p.expect target = (.error e, p')) :
    p' = p ∧ e.kind = .Expected target := by
  rcases hget : p.tokens.get? p.cursor with _ | tok
  · simp only [Parser.expect, hget] at h
    injection h with h1 h2
    injection h1 with h1
    exact ⟨h2.symm, by rw [← h1]; rfl⟩
  · by_cases ht : target = tok.kind
    · simp only [Parser.expect, hget, if_pos ht] at h
      simp at h
    · simp only [Parser.expect, hget, if_neg ht] at h
      injection h with h1 h2
      injection h1 with h1
      exact ⟨h2.symm, by rw [← h1]; rfl⟩

theorem Parser.take_id_ok (p : Parser) (name : String) (p' : Parser)
    (h : p.take_id = (.ok name, p')) :
    p'.cursor = p.cursor + 1 ∧ p'.tokens = p.tokens ∧ p.cursor < p.tokens.length := by
  rcases hget : p.peek with _ | tok
  · simp only [Parser.take_id, hget] at h
    simp at h
  · obtain ⟨hlt, -⟩ := List.get?_eq_some.mp hget
    rcases hkind : tok.kind with name2 | m | ph | _ | _ <;>
      simp only [Parser.take_id, hget, hkind] at h <;>
      first
      | (injection h with h1 h2
         rw [← h2, p.pop_snd_of_some tok hget]
         exact ⟨rfl, rfl, hlt⟩)
      | simp at h

theorem Parser.take_id_err (p : Parser) (e : ParseError) (p' : Parser)
    (h : p.take_id = (.error e, p')) :
    p' = p ∧ e.kind = .ExpectedId := by
  rcases hget : p.peek with _ | tok
  · simp only [Parser.take_id, hget] at h
    injection h with h1 h2
    injection h1 with h1
    exact ⟨h2.symm, by rw [← h1]; rfl⟩
  · rcases hkind : tok.kind with name2 | m | ph | _ | _ <;>
      simp only [Parser.take_id, hget, hkind] at h <;>
      first
      | (injection h with h1 h2
         injection h1 with h1
         exact ⟨h2.symm, by rw [← h1]; rfl⟩)
      | (injection h with h1 h2
         injection h1)

theorem Parser.take_mod_ok (p : Parser) (m : Mod) (p' : Parser)
    (h : p.take_mod = (.ok m, p')) :
    p'.cursor = p.cursor + 1 ∧ p'.tokens = p.tokens ∧ p.cursor < p.tokens.length := by
  rcases hget : p.peek with _ | tok
  · simp only [Parser.take_mod, hget] at h
    simp at h
  · obtain ⟨hlt, -⟩ := List.get?_eq_some.mp hget
    rcases hkind : tok.kind with name2 | m2 | ph | _ | _ <;>
      simp only [Parser.take_mod, hget, hkind] at h <;>
      first
      | (injection h with h1 h2
         rw [← h2, p.pop_snd_of_some tok hget]
         exact ⟨rfl, rfl, hlt⟩)
      | simp at h

theorem Parser.take_mod_err (p : Parser) (e : ParseError) (p' : Parser)
    (h : p.take_mod = (.error e, p')) :
    p' = p ∧ e.kind = .ExpectedMod := by
  rcases hget : p.peek with _ | tok
  · simp only [Parser.take_mod, hget] at h
    injection h with h1 h2
    injection h1 with h1
    exact ⟨h2.symm, by rw [← h1]; rfl⟩
  · rcases hkind : tok.kind with name2 | m2 | ph | _ | _ <;>
      simp only [Parser.take_mod, hget, hkind] at h <;>
      first
      | (injection h with h1 h2
         injection h1 with h1
         exact ⟨h2.symm, by rw [← h1]; rfl⟩)
      | (injection h with h1 h2
         injection h1)

theorem parse_key_ok (p : Parser) (k : Key) (p' : Parser)
    (h : parse_key p = (.ok k, p')) :
    p.cursor < p'.cursor ∧ p'.tokens = p.tokens := by
  rcases hmod : p.take_mod with ⟨rm, p1⟩
  cases rm with
  | ok modifier =>
    obtain ⟨hc1, ht1, -⟩ := p.take_mod_ok modifier p1 hmod
    rcases hexp : p1.expect (TokenKind.Phrase "+") with ⟨re, p2⟩
    cases re with
    | ok u =>
      obtain ⟨hc2, ht2, -⟩ := p1.expect_ok (TokenKind.Phrase "+") u p2 hexp
      rcases hid : p2.take_id with ⟨ri, p3⟩
      cases ri with
      | ok key =>
        obtain ⟨hc3, ht3, -⟩ := p2.take_id_ok key p3 hid
        simp only [parse_key, hmod, hexp, hid] at h
        injection h with h1 h2
        rw [← h2]
        constructor
        · omega
        · rw [ht3, ht2, ht1]
      | error e =>
        simp only [parse_key, hmod, hexp, hid] at h
        simp at h
    | error e =>
      simp only [parse_key, hmod, hexp] at h
      simp at h
  | error e =>
    obtain ⟨hp1, -⟩ := p.take_mod_err e p1 hmod
    rcases hid : p1.take_id with ⟨ri, p2⟩
    cases ri with
    | ok key =>
      obtain ⟨hc2, ht2, -⟩ := p1.take_id_ok key p2 hid
      have hc1 : p1.cursor = p.cursor := by rw [hp1]
      simp only [parse_key, hmod, hid] at h
      injection h with h1 h2
      rw [← h2]
      constructor
      · omega
      · rw [ht2, hp1]
    | error e2 =>
      simp only [parse_key, hmod, hid] at h
      simp at h

theorem parse_key_err (p : Parser) (e : ParseError) (p' : Parser)
    (h : parse_key p = (.error e, p')) :
    p'.tokens = p.tokens ∧ ¬ e.kind = .RemainingTokens := by
  rcases hmod : p.take_mod with ⟨rm, p1⟩
  cases rm with
  | ok modifier =>
    obtain ⟨hc1, ht1, -⟩ := p.take_mod_ok modifier p1 hmod
    rcases hexp : p1.expect (TokenKind.Phrase "+") with ⟨re, p2⟩
    cases re with
    | ok u =>
      obtain ⟨hc2, ht2, -⟩ := p1.expect_ok (TokenKind.Phrase "+") u p2 hexp
      rcases hid : p2.take_id with ⟨ri, p3⟩
      cases ri with
      | ok key =>
        simp only [parse_key, hmod, hexp, hid] at h
        simp at h
      | error e3 =>
        obtain ⟨hp3, hk3⟩ := p2.take_id_err e3 p3 hid
        simp only [parse_key, hmod, hexp, hid] at h
        injection h with h1 h2
        injection h1 with h1
        subst h1
        rw [← h2, hp3]
        exact ⟨by rw [ht2, ht1], by rw [hk3]; simp⟩
    | error e2 =>
      obtain ⟨hp2, hk2⟩ := p1.expect_err (TokenKind.Phrase "+") e2 p2 hexp
      simp only [parse_key, hmod, hexp] at h
      injection h with h1 h2
      injection h1 with h1
      subst h1
      rw [← h2, hp2]
      exact ⟨ht1, by rw [hk2]; simp⟩
  | error e1 =>
    obtain ⟨hp1, -⟩ := p.take_mod_err e1 p1 hmod
    rcases hid : p1.take_id with ⟨ri, p2⟩
    cases ri with
    | ok key =>
      simp only [parse_key, hmod, hid] at h
      simp at h
    | error e2 =>
      obtain ⟨hp2, hk2⟩ := p1.take_id_err e2 p2 hid
      simp only [parse_key, hmod, hid] at h
      injection h with h1 h2
      injection h1 with h1
      subst h1
      rw [← h2, hp2, hp1]
      exact ⟨rfl, by rw [hk2]; simp⟩

theorem parse_map_ok (p : Parser) (m : Map) (p' : Parser)
    (h : parse_map p = (.ok m, p')) :
    p.cursor < p'.cursor ∧ p'.tokens = p.tokens ∧ p.cursor < p.tokens.length := by
  rcases hexp : p.expect (TokenKind.Phrase "map") with ⟨re, p1⟩
  cases re with
  | ok u =>
    obtain ⟨hc1, ht1, hlt⟩ := p.expect_ok (TokenKind.Phrase "map") u p1 hexp
    rcases hkey : parse_key p1 with ⟨rk, p2⟩
    cases rk with
    | ok key =>
      obtain ⟨hc2, ht2⟩ := parse_key_ok p1 key p2 hkey
      rcases hid : p2.take_id with ⟨ri, p3⟩
      cases ri with
      | ok cmd =>
        obtain ⟨hc3, ht3, -⟩ := p2.take_id_ok cmd p3 hid
        simp only [parse_map, hexp, hkey, hid] at h
        injection h with h1 h2
        rw [← h2]
        exact ⟨by omega, by rw [ht3, ht2, ht1], hlt⟩
      | error e =>
        simp only [parse_map, hexp, hkey, hid] at h
        simp at h
    | error e =>
      simp only [parse_map, hexp, hkey] at h
      simp at h
  | error e =>
    simp only [parse_map, hexp] at h
    simp at h

theorem parse_map_err (p : Parser) (e : ParseError) (p' : Parser)
    (h : parse_map p = (.error e, p')) :
    p'.tokens = p.tokens ∧ ¬ e.kind = .RemainingTokens := by
  rcases hexp : p.expect (TokenKind.Phrase "map") with ⟨re, p1⟩
  cases re with
  | ok u =>
    obtain ⟨hc1, ht1, -⟩ := p.expect_ok (TokenKind.Phrase "map") u p1 hexp
    rcases hkey : parse_key p1 with ⟨rk, p2⟩
    cases rk with
    | ok key =>
      obtain ⟨hc2, ht2⟩ := parse_key_ok p1 key p2 hkey
      rcases hid : p2.take_id with ⟨ri, p3⟩
      cases ri with
      | ok cmd =>
        simp only [parse_map, hexp, hkey, hid] at h
        simp at h
      | error e3 =>
        obtain ⟨hp3, hk3⟩ := p2.take_id_err e3 p3 hid
        simp only [parse_map, hexp, hkey, hid] at h
        injection h with h1 h2
        injection h1 with h1
        subst h1
        rw [← h2, hp3]
        exact ⟨by rw [ht2, ht1], by rw [hk3]; simp⟩
    | error e2 =>
      obtain ⟨hp2, hk2⟩ := parse_key_err p1 e2 p2 hkey
      simp only [parse_map, hexp, hkey] at h
      injection h with h1 h2
      injection h1 with h1
      subst h1
      rw [← h2]
      exact ⟨by rw [hp2, ht1], hk2⟩
  | error e1 =>
    obtain ⟨hp1, hk1⟩ := p.expect_err (TokenKind.Phrase "map") e1 p1 hexp
    simp only [parse_map, hexp] at h
    injection h with h1 h2
    injection h1 with h1
    subst h1
    rw [← h2, hp1]
    exact ⟨rfl, by rw [hk1]; simp⟩

theorem parse_statement_ok (p : Parser) (st : Statement) (p' : Parser)
    (h : parse_statement p = (.ok st, p')) :
    p.cursor < p'.cursor ∧ p'.tokens = p.tokens ∧ p.cursor < p.tokens.length := by
  rcases hmap : parse_map p with ⟨rm, p1⟩
  cases rm with
  | ok m =>
    simp only [parse_statement, hmap] at h
    injection h with h1 h2
    rw [← h2]
    exact parse_map_ok p m p1 hmap
  | error e =>
    simp only [parse_statement, hmap] at h
    simp at h

theorem parse_statement_err (p : Parser) (e : ParseError) (p' : Parser)
    (h : parse_statement p = (.error e, p')) :
    p'.tokens = p.tokens ∧ ¬ e.kind = .RemainingTokens := by
  rcases hmap : parse_map p with ⟨rm, p1⟩
  cases rm with
  | ok m =>
    simp only [parse_statement, hmap] at h
    simp at h
  | error e1 =>
    simp only [parse_statement, hmap] at h
    injection h with h1 h2
    injection h1 with h1
    subst h1
    rw [← h2]
    exact parse_map_err p e1 p1 hmap

/-! ### Statement-loop lemmas -/

theorem parse_program_ok_is_done : ∀ (fuel : Nat) (p : Parser) (prog : Program) (p' : Parser),
    parse_program fuel p = some (.ok prog, p') → p'.is_done = true := by
  intro fuel
  induction fuel with
  | zero =>
    intro p prog p' h
    simp [parse_program] at h
  | succ fuel ih =>
    intro p prog p' h
    rcases hstmt : parse_statement p with ⟨rs, p1⟩
    cases rs with
    | ok statement =>
      rcases hpeek : p1.peek with _ | tok
      · simp only [parse_program, hstmt, hpeek] at h
        injection h with h1
        injection h1 with h1 h2
        rw [← h2]
        have hnone : p1.tokens.get? p1.cursor = none := hpeek
        rw [List.get?_eq_none] at hnone
        simp [Parser.is_done]
        omega
      · by_cases hnl : tok.kind = TokenKind.Newline
        · rcases hrec : parse_program fuel ((p1.pop).2) with _ | r2
          · simp only [parse_program, hstmt, hpeek, if_pos hnl, hrec] at h
            simp at h
          · cases r2 with
            | mk r2v p2 =>
              cases r2v with
              | ok rest =>
                simp only [parse_program, hstmt, hpeek, if_pos hnl, hrec] at h
                injection h with h1
                injection h1 with h1 h2
                rw [← h2]
                exact ih ((p1.pop).2) rest p2 hrec
              | error e2 =>
                simp only [parse_program, hstmt, hpeek, if_pos hnl, hrec] at h
                simp at h
        · simp only [parse_program, hstmt, hpeek, if_neg hnl] at h
          simp at h
    | error e =>
      simp only [parse_program, hstmt] at h
      simp at h

theorem parse_program_err_kind : ∀ (fuel : Nat) (p : Parser) (e : ParseError) (p' : Parser),
    parse_program fuel p = some (.error e, p') → ¬ e.kind = .RemainingTokens := by
  intro fuel
  induction fuel with
  | zero =>
    intro p e p' h
    simp [parse_program] at h
  | succ fuel ih =>
    intro p e p' h
    rcases hstmt : parse_statement p with ⟨rs, p1⟩
    cases rs with
    | ok statement =>
      rcases hpeek : p1.peek with _ | tok
      · simp only [parse_program, hstmt, hpeek] at h
        simp at h
      · by_cases hnl : tok.kind = TokenKind.Newline
        · rcases hrec : parse_program fuel ((p1.pop).2) with _ | r2
          · simp only [parse_program, hstmt, hpeek, if_pos hnl, hrec] at h
            simp at h
          · cases r2 with
            | mk r2v p2 =>
              cases r2v with
              | ok rest =>
                simp only [parse_program, hstmt, hpeek, if_pos hnl, hrec] at h
                simp at h
              | error e2 =>
                simp only [parse_program, hstmt, hpeek, if_pos hnl, hrec] at h
                injection h with h1
                injection h1 with h1 h2
                injection h1 with h1
                subst h1
                exact ih ((p1.pop).2) e2 p2 hrec
        · simp only [parse_program, hstmt, hpeek, if_neg hnl] at h
          injection h with h1
          injection h1 with h1 h2
          injection h1 with h1
          rw [← h1]
          simp [ParseError.new_pos]
    | error e1 =>
      simp only [parse_program, hstmt] at h
      injection h with h1
      injection h1 with h1 h2
      injection h1 with h1
      subst h1
      exact (parse_statement_err p e1 p1 hstmt).2

theorem parse_program_isSome : ∀ (fuel : Nat) (p : Parser),
    p.tokens.length - p.cursor < fuel → (parse_program fuel p).isSome = true := by
  intro fuel
  induction fuel with
  | zero =>
    intro p h
    omega
  | succ fuel ih =>
    intro p h
    rcases hstmt : parse_statement p with ⟨rs, p1⟩
    cases rs with
    | ok statement =>
      obtain ⟨hc1, ht1, hlt⟩ := parse_statement_ok p statement p1 hstmt
      rcases hpeek : p1.peek with _ | tok
      · simp [parse_program, hstmt, hpeek]
      · by_cases hnl : tok.kind = TokenKind.Newline
        · have hp2 : (p1.pop).2 = { p1 with cursor := p1.cursor + 1 } :=
            p1.pop_snd_of_some tok hpeek
          have hrec : ((p1.pop).2).tokens.length - ((p1.pop).2).cursor < fuel := by
            rw [hp2]
            simp only
            rw [ht1]
            omega
          have hsome := ih ((p1.pop).2) hrec
          rcases hx : parse_program fuel ((p1.pop).2) with _ | r2
          · rw [hx] at hsome
            simp at hsome
          · cases r2 with
            | mk r2v p2 =>
              cases r2v with
              | ok rest => simp [parse_program, hstmt, hpeek, if_pos hnl, hx]
              | error e2 => simp [parse_program, hstmt, hpeek, if_pos hnl, hx]
        · simp [parse_program, hstmt, hpeek, if_neg hnl]
    | error e =>
      simp [parse_program, hstmt]

/-! ### Claims -/

/-- Claim C1 (code bug): the claim says every nonempty all-letter input not
beginning with a keyword lexes to a single `Identifier` covering the whole
input, uppercase included.  The code rejects uppercase: the `uppercase`
branch of `lex_id` tests the range `'a'..='z'` again instead of
`'A'..='Z'`, so `lex` on `"A"` fails with `RemainingInput`, while the
all-lowercase `"abc"` behaves as claimed. -/
theorem claim1_uppercase_identifier_rejected :
    lex (Scanner.new "A") = .error .RemainingInput ∧
    lex (Scanner.new "abc") =
      .ok [{ line := 1, col := 1, kind := TokenKind.Id "abc" }] := by
  constructor <;> rfl

/-- Claim C2: on every input on which `lex` succeeds, the returned sequence
is the stamped (post-text-position) token sequence after the corrective
shift pass and whitespace filtering: token `i` carries the position stamped
on the token produced immediately before it, `(1, 1)` for the first
produced token (the `zipWith` conjunct), and each stamped position is the
scanner position immediately after that token's text (the last conjunct) —
hence each corrected position is the scanner position at which the token's
own text begins. -/
theorem claim2_positions_are_starts :
    (∀ (s : Scanner) (ts : List Token), lex s = .ok ts →
      ∃ raw, lex_stamped s = .ok raw ∧
        ts = (correction_pass_spec (1, 1) raw).filter
          fun token => !decide (token.kind = TokenKind.Whitespace)) ∧
    (∀ (prev : Nat × Nat) (raw : List Token),
      correction_pass_spec prev raw =
        List.zipWith (fun token q => { token with line := q.1, col := q.2 }) raw
          (prev :: raw.map fun token => (token.line, token.col))) ∧
    (∀ (s : Scanner) (t : Token) (s1 : Scanner), lexStep s = (.ok t, s1) →
      t.line = s1.curr_line ∧ t.col = s1.curr_col) :=
  ⟨lex_ok_correction, correction_pass_spec_zip,
   fun s t s1 h =>
     ⟨(lexStep_ok_spec s t s1 h).2.2.1, (lexStep_ok_spec s t s1 h).2.2.2.1⟩⟩

/-- Claim C2 witness at the concrete input `"ctrl"`. -/
theorem claim2_witness :
    (∃ raw, lex_stamped (Scanner.new "ctrl") = .ok raw ∧
      [({ line := 1, col := 1, kind := TokenKind.Mod Mod.Ctrl } : Token)] =
        (correction_pass_spec (1, 1) raw).filter
          (fun token => !decide (token.kind = TokenKind.Whitespace))) ∧
    ({ line := 1, col := 5, kind := TokenKind.Mod Mod.Ctrl } : Token).line =
      ({ cursor := 4, characters := "ctrl".data, curr_line := 1, curr_col := 5 } :
        Scanner).curr_line ∧
    ({ line := 1, col := 5, kind := TokenKind.Mod Mod.Ctrl } : Token).col =
      ({ cursor := 4, characters := "ctrl".data, curr_line := 1, curr_col := 5 } :
        Scanner).curr_col :=
  ⟨claim2_positions_are_starts.1 (Scanner.new "ctrl") _ rfl,
   claim2_positions_are_starts.2.2 (Scanner.new "ctrl") _ _ rfl⟩

/-- Claim C3 counterexample: on the input `" a"` (leading space) `lex`
succeeds and the first returned token has column 2, not column 1. -/
theorem claim3_counterexample :
    lex (Scanner.new " a") =
      .ok [{ line := 1, col := 2, kind := TokenKind.Id "a" }] ∧
    ¬ ({ line := 1, col := 2, kind := TokenKind.Id "a" } : Token).col = 1 := by
  constructor
  · rfl
  · decide

/-- Claim C3 (amended): for every input on which `lex` succeeds with a
nonempty token sequence, *provided the input does not begin with a space or
tab*, the first token has position line 1, column 1.  (For inputs that do
begin with spaces/tabs the leading whitespace token absorbs the `(1, 1)`
stamp and is dropped, so the first returned token starts after it.) -/
theorem claim3_first_token_origin (input : String) (ts : List Token)
    (h : lex (Scanner.new input) = .ok ts) (hne : ts ≠ [])
    (hsp : (Scanner.new input).peek ≠ some ' ')
    (htab : (Scanner.new input).peek ≠ some '\t') :
    ∃ t rest, ts = t :: rest ∧ t.line = 1 ∧ t.col = 1 :=
  lex_first_token input ts h hne hsp htab

/-- Claim C3 witness at the concrete input `"ctrl"`. -/
theorem claim3_witness :
    ∃ t rest,
      [({ line := 1, col := 1, kind := TokenKind.Mod Mod.Ctrl } : Token)] = t :: rest ∧
      t.line = 1 ∧ t.col = 1 :=
  claim3_first_token_origin "ctrl" _ rfl (by simp) (by decide) (by decide)

/-- Claim C4: lexing then parsing `"map ctrl+k up"` yields exactly one
statement, a map binding with modifier `Ctrl`, key `"k"` and command
`"up"`. -/
theorem claim4_map_ctrl_k_up :
    lex_parse "map ctrl+k up" =
      .ok (.ok [Statement.Map
        { key := { modifier := some Mod.Ctrl, key := "k" }, cmd_name := "up" }]) := by
  rfl

/-- Claim C5: the input `"ctrl"` alone lexes to exactly one token, of kind
`Modifier(Ctrl)` (so never an `Identifier("ctrl")`), because `lex_mod` is
tried before `lex_id`. -/
theorem claim5_ctrl_is_modifier :
    lex (Scanner.new "ctrl") =
      .ok [{ line := 1, col := 1, kind := TokenKind.Mod Mod.Ctrl }] := by
  rfl

/-- Claim C6: lexing then parsing `"map ctrl+k"` (missing the command name)
fails with `ExpectedId` positioned at end of input. -/
theorem claim6_missing_command_eof :
    lex_parse "map ctrl+k" =
      .ok (.error { position := Position.EOF, kind := ParseErrorKind.ExpectedId }) := by
  rfl

/-- Claim C7: lexing then parsing `"map ctrl k"` (a modifier not followed
by "+") fails with `Expected(Literal("+"))` positioned at the token
containing `"k"` (line 1, column 10). -/
theorem claim7_dangling_modifier :
    lex_parse "map ctrl k" =
      .ok (.error
        { position := Position.Pos 1 10,
          kind := ParseErrorKind.Expected (TokenKind.Phrase "+") }) := by
  rfl

/-- Claim C8: `take_str` is atomic.  If the remaining input is too short or
the comparison loop mismatches, it returns false; whenever it returns false
the scanner (cursor, line, column) is completely unchanged; whenever it
returns true it has consumed exactly `target.length` characters, the final
state being exactly `target.length` iterated `pop`s (so line/column follow
`pop`'s rules). -/
theorem claim8_take_str_atomic (s : Scanner) (target : String) :
    (target.length + s.cursor > s.characters.length → (s.take_str target).1 = false) ∧
    (s.take_strGo target.data s.cursor = none → (s.take_str target).1 = false) ∧
    ((s.take_str target).1 = false → (s.take_str target).2 = s) ∧
    ((s.take_str target).1 = true →
      (s.take_str target).2 = s.popN target.length ∧
      (s.take_str target).2.cursor = s.cursor + target.length ∧
      (s.take_str target).2.characters = s.characters) := by
  refine ⟨?_, ?_, Scanner.take_str_false s target, Scanner.take_str_true s target⟩
  · intro hshort
    simp [Scanner.take_str, hshort]
  · intro hgo
    by_cases hshort : target.length + s.cursor > s.characters.length
    · simp [Scanner.take_str, hshort]
    · simp [Scanner.take_str, hshort, hgo]

/-- Claim C8 witness: a succeeding and a failing concrete `take_str`. -/
theorem claim8_witness :
    (((Scanner.new "ctrl").take_str "ctrl").2 = (Scanner.new "ctrl").popN ("ctrl" : String).length ∧
      ((Scanner.new "ctrl").take_str "ctrl").2.cursor =
        (Scanner.new "ctrl").cursor + ("ctrl" : String).length ∧
      ((Scanner.new "ctrl").take_str "ctrl").2.characters = (Scanner.new "ctrl").characters) ∧
    ((Scanner.new "x").take_str "ctrl").2 = Scanner.new "x" :=
  ⟨(claim8_take_str_atomic (Scanner.new "ctrl") "ctrl").2.2.2 rfl,
   (claim8_take_str_atomic (Scanner.new "x") "ctrl").2.2.1 rfl⟩

/-- Claim C9: each of the six lexer rules, on any scanner state, either
returns Ok having advanced the cursor by at least one character (with the
character buffer untouched), or returns Err leaving the scanner unchanged;
consequently the scan loop's fuel (input length + 1) never runs out, i.e.
the loop terminates on every finite input. -/
theorem claim9_rules_progress_or_frame :
    (∀ s, rule_spec lex_mod s) ∧
    (∀ s, rule_spec lex_newline s) ∧
    (∀ s, rule_spec lex_whitespace s) ∧
    (∀ s, rule_spec (lex_phrase "map") s) ∧
    (∀ s, rule_spec (lex_phrase "+") s) ∧
    (∀ s, rule_spec lex_id s) ∧
    (∀ (fuel : Nat) (s : Scanner) (pl pc : Nat),
      s.characters.length - s.cursor < fuel → (lexAux fuel s pl pc).isSome = true) := by
  refine ⟨?_, ?_, ?_, ?_, ?_, ?_, lexAux_isSome⟩
  · intro s
    rcases hr : lex_mod s with ⟨r, s1⟩
    cases r with
    | ok t =>
      simp only [rule_spec, hr]
      exact ⟨(lex_mod_ok s t s1 hr).1, (lex_mod_ok s t s1 hr).2.1⟩
    | error e =>
      simp only [rule_spec, hr]
      exact lex_mod_err s e s1 hr
  · intro s
    rcases hr : lex_newline s with ⟨r, s1⟩
    cases r with
    | ok t =>
      simp only [rule_spec, hr]
      exact ⟨(lex_newline_ok s t s1 hr).1, (lex_newline_ok s t s1 hr).2.1⟩
    | error e =>
      simp only [rule_spec, hr]
      exact lex_newline_err s e s1 hr
  · intro s
    rcases hr : lex_whitespace s with ⟨r, s1⟩
    cases r with
    | ok t =>
      simp only [rule_spec, hr]
      exact ⟨(lex_whitespace_ok s t s1 hr).1, (lex_whitespace_ok s t s1 hr).2.1⟩
    | error e =>
      simp only [rule_spec, hr]
      exact lex_whitespace_err s e s1 hr
  · intro s
    rcases hr : lex_phrase "map" s with ⟨r, s1⟩
    cases r with
    | ok t =>
      simp only [rule_spec, hr]
      refine ⟨(lex_phrase_ok "map" s t s1 ?_ hr).1, (lex_phrase_ok "map" s t s1 ?_ hr).2.1⟩ <;>
        simp [String.length]
    | error e =>
      simp only [rule_spec, hr]
      exact lex_phrase_err "map" s e s1 hr
  · intro s
    rcases hr : lex_phrase "+" s with ⟨r, s1⟩
    cases r with
    | ok t =>
      simp only [rule_spec, hr]
      refine ⟨(lex_phrase_ok "+" s t s1 ?_ hr).1, (lex_phrase_ok "+" s t s1 ?_ hr).2.1⟩ <;>
        simp [String.length]
    | error e =>
      simp only [rule_spec, hr]
      exact lex_phrase_err "+" s e s1 hr
  · intro s
    rcases hr : lex_id s with ⟨r, s1⟩
    cases r with
    | ok t =>
      simp only [rule_spec, hr]
      exact ⟨(lex_id_ok s t s1 hr).1, (lex_id_ok s t s1 hr).2.1⟩
    | error e =>
      simp only [rule_spec, hr]
      exact lex_id_err s e s1 hr

/-- Claim C9 witness: the fuel-sufficiency conjunct discharged at the empty
input, and a rule applied at a concrete scanner. -/
theorem claim9_witness :
    rule_spec lex_mod (Scanner.new "") ∧
    (lexAux 1 (Scanner.new "") 1 1).isSome = true :=
  ⟨claim9_rules_progress_or_frame.1 (Scanner.new ""),
   claim9_rules_progress_or_frame.2.2.2.2.2.2 1 (Scanner.new "") 1 1 (by decide)⟩

/-- Claim C10: whenever `parse_program` returns Ok the parser has consumed
the whole token sequence (`is_done`), and consequently `parse` never
returns a `RemainingTokens` error. -/
theorem claim10_parse_consumes_all :
    (∀ (fuel : Nat) (p : Parser) (prog : Program) (p' : Parser),
      parse_program fuel p = some (.ok prog, p') → p'.is_done = true) ∧
    (∀ (p : Parser) (e : ParseError),
      parse p = .error e → ¬ e.kind = .RemainingTokens) := by
  refine ⟨parse_program_ok_is_done, ?_⟩
  intro p e h
  rcases hx : parse_program (p.tokens.length + 1) p with _ | r2
  · have hsome := parse_program_isSome (p.tokens.length + 1) p (by omega)
    rw [hx] at hsome
    simp at hsome
  · cases r2 with
    | mk r2v p1 =>
      cases r2v with
      | ok prog =>
        have hdone := parse_program_ok_is_done (p.tokens.length + 1) p prog p1 hx
        simp only [parse, hx, if_pos hdone] at h
        simp at h
      | error e1 =>
        simp only [parse, hx] at h
        injection h with h1
        subst h1
        exact parse_program_err_kind (p.tokens.length + 1) p e1 p1 hx

/-- Claim C10 witness: a concrete successful `parse_program` run ends with
the parser done, and a concrete failing `parse` has a non-`RemainingTokens`
kind. -/
theorem claim10_witness :
    (Parser.mk 3
      [{ line := 1, col := 1, kind := TokenKind.Phrase "map" },
       { line := 1, col := 5, kind := TokenKind.Id "k" },
       { line := 1, col := 7, kind := TokenKind.Id "j" }]).is_done = true ∧
    ¬ ({ position := Position.EOF,
         kind := ParseErrorKind.Expected (TokenKind.Phrase "map") } : ParseError).kind =
        .RemainingTokens :=
  ⟨claim10_parse_consumes_all.1 4
    (Parser.new
      [{ line := 1, col := 1, kind := TokenKind.Phrase "map" },
       { line := 1, col := 5, kind := TokenKind.Id "k" },
       { line := 1, col := 7, kind := TokenKind.Id "j" }])
    [Statement.Map { key := { modifier := none, key := "k" }, cmd_name := "j" }]
    _ rfl,
   claim10_parse_consumes_all.2 (Parser.new []) _ rfl⟩

end Rolf
